import Mathlib

/-!
Shallow embedding of `src/queue.hpp` (namespace `nstd`): a growable circular
queue in two variants, `queue<T>` (general, with element lifecycle calls) and
`queue_trivial<T>` (restricted to trivial types, raw byte transfer).

Modelling conventions:
* `INT_TYPE` is `int` in the source; every field value reachable from the
  default-constructed state is nonnegative and small, so the fields
  `front_`, `back_`, `capacity_`, `size_` are modelled as `Nat` (C `%` on
  nonnegative operands agrees with `Nat.mod`).  The caller-supplied index of
  `operator[]` is modelled as `Int`, because the source checks `i >= 0`.
* The heap buffer is a `List (Option T)` of length `capacity_`; `none` models
  a slot whose bytes are indeterminate / hold no constructed object (fresh
  `malloc` memory, or a slot whose element was destroyed).  `memcpy` and
  element writes act on this list.
* A failed `assert` is modelled by returning `none` from the operation
  (`Option`-valued result); `abort` on `malloc` failure is out of scope
  (allocation always succeeds in the model).
* The general variant's state carries two instrumentation counters `ctors`
  and `dtors`, incremented exactly where the source syntactically performs a
  `T` constructor call (placement `new (..) T()` in `emplace_back`) or a
  destructor call (`buffer_[..].~T()` in `pop` and in `~queue`).  Plain
  assignments (`buffer_[back_] = data`, the move-assignments of the growth
  loop) are not constructor calls and leave the counters unchanged.
-/

namespace NQ

/-- State of `nstd::queue<T>` (the general variant), line 18-190 of
`queue.hpp`, plus the two lifecycle instrumentation counters. -/
structure Queue (T : Type) where
  buffer : List (Option T)
  front : Nat
  back : Nat
  capacity : Nat
  size : Nat
  ctors : Nat
  dtors : Nat
deriving DecidableEq

/-- State of `nstd::queue_trivial<T>` (the trivial variant), line 198-330.
No lifecycle counters: the trivial variant never calls constructors or
destructors. -/
structure QueueTrivial (T : Type) where
  buffer : List (Option T)
  front : Nat
  back : Nat
  capacity : Nat
  size : Nat
deriving DecidableEq

variable {T : Type}

/-- The `queue() {}` with the field defaults of lines 22-26:
null buffer, all indices 0.  The counters start at 0 (no element has been
constructed or destroyed yet). -/
def Queue.init : Queue T := ⟨[], 0, 0, 0, 0, 0, 0⟩

/-- The `queue_trivial() noexcept {}` with the field defaults of
lines 203-207. -/
def QueueTrivial.init : QueueTrivial T := ⟨[], 0, 0, 0, 0⟩

/-- The `queue::should_reallocate`, lines 74-99.  When `capacity_ == size_`:
double the capacity (2 if it was 0), `malloc` a fresh block (all slots
indeterminate, hence `none`), then run
`for (i = 0; i < size_; i++) buffer_new[i] = std::move(buffer_[(front_ + i) % size_]);`
(note the source divides by `size_`, not `capacity_`), free the old block and
set `front_ = 0`, `back_ = size_`.  The fresh block is expressed as the list
of values the loop leaves in each of its `capacity'` slots: slot `i < size_`
receives the moved value, every later slot keeps its indeterminate content.
Move-assignment performs no constructor call, so the counters are unchanged. -/
def Queue.should_reallocate (q : Queue T) : Queue T :=
  if q.capacity = q.size then
    let capacity' := if q.capacity = 0 then 2 else q.capacity * 2
    let buffer_new := (List.range capacity').map (fun i =>
      if i < q.size then q.buffer.getD ((q.front + i) % q.size) none else none)
    { q with buffer := buffer_new, front := 0, back := q.size, capacity := capacity' }
  else q

/-- The `queue_trivial::should_reallocate`, lines 220-241.  Same trigger and
capacity update, but the transfer is
`memcpy(buffer_new, buffer_, sizeof(T) * size_);`: the first `size_`
physical slots of the old block, in physical order, land in slots
`0..size_` of the new block; the remaining new slots keep the indeterminate
bytes of the fresh `malloc`. -/
def QueueTrivial.should_reallocate (q : QueueTrivial T) : QueueTrivial T :=
  if q.capacity = q.size then
    let capacity' := if q.capacity = 0 then 2 else q.capacity * 2
    let buffer_new := q.buffer.take q.size ++ List.replicate (capacity' - q.size) none
    { q with buffer := buffer_new, front := 0, back := q.size, capacity := capacity' }
  else q

/-- The `queue::push_back(const T&)`, lines 118-124 (the `T&&` overload,
lines 137-143, produces the same state).  `buffer_[back_] = data;` is a plain
assignment into the raw slot — not a constructor call — so `ctors` is
unchanged. -/
def Queue.push_back (q : Queue T) (data : T) : Queue T :=
  let q := q.should_reallocate
  { q with buffer := q.buffer.set q.back (some data),
           back := (q.back + 1) % q.capacity,
           size := q.size + 1 }

/-- The `queue::emplace_back()`, lines 126-135: placement-`new` default
construction `new (&buffer_[back_]) T()` — one constructor call. -/
def Queue.emplace_back [Inhabited T] (q : Queue T) : Queue T :=
  let q := q.should_reallocate
  { q with buffer := q.buffer.set q.back (some default),
           back := (q.back + 1) % q.capacity,
           size := q.size + 1,
           ctors := q.ctors + 1 }

/-- Body of `queue::pop` after the `assert`, lines 160-164: destructor call
on `buffer_[front_]` (the slot no longer holds a live object, and `dtors`
is incremented), then `front_ = (front_ + 1) % capacity_; --size_;`. -/
def Queue.popGo (q : Queue T) : Queue T :=
  { q with buffer := q.buffer.set q.front none,
           front := (q.front + 1) % q.capacity,
           size := q.size - 1,
           dtors := q.dtors + 1 }

/-- The `queue::pop`, lines 157-165.  `assert(size_ != 0)`: a violated assertion
is modelled as `none`. -/
def Queue.pop (q : Queue T) : Option (Queue T) :=
  if q.size = 0 then none else some q.popGo

/-- The `queue::front`, lines 145-149: `assert(size_ != 0); return buffer_[front_];`.
The returned reference is modelled by the physical slot index it points to. -/
def Queue.front_slot (q : Queue T) : Option Nat :=
  if q.size = 0 then none else some q.front

/-- The `queue::back`, lines 151-155:
`assert(size_ != 0); INT_TYPE last = (back_ + (size_ - 1)) % capacity_; return buffer_[last];`.
The returned reference is modelled by the physical slot index it points to. -/
def Queue.back_slot (q : Queue T) : Option Nat :=
  if q.size = 0 then none else some ((q.back + (q.size - 1)) % q.capacity)

/-- The `queue::operator[]`, lines 175-180:
`assert(i >= 0 && i < size_); return buffer_[(front_ + i) % capacity_];`,
as the physical slot the returned reference points to (`none` on a violated
assertion). -/
def Queue.atSlot (q : Queue T) (i : Int) : Option Nat :=
  if 0 ≤ i ∧ i < (q.size : Int) then some ((q.front + i.toNat) % q.capacity) else none

/-- The `queue::operator[]` again, now reading the slot's content: the value the
returned reference denotes (`none` on a violated assertion, and also when the
slot holds no constructed object). -/
def Queue.atv (q : Queue T) (i : Int) : Option T :=
  if 0 ≤ i ∧ i < (q.size : Int) then q.buffer.getD ((q.front + i.toNat) % q.capacity) none
  else none

/-- The `~queue()`, lines 60-70: calls `~T()` once for each of the `size_` live
elements, then frees the buffer.  Result: the final
(constructor-count, destructor-count) pair of the instance's lifetime. -/
def Queue.destroy (q : Queue T) : Nat × Nat := (q.ctors, q.dtors + q.size)

/-- The `queue::clear`, lines 110-116: pop until empty, then reset both handles. -/
def Queue.clearLoop (q : Queue T) : Queue T :=
  if h : q.size = 0 then q
  else
    have : q.popGo.size < q.size := by
      simp only [Queue.popGo]
      omega
    q.popGo.clearLoop
termination_by q.size

/-- The `queue::clear`, lines 110-116. -/
def Queue.clear (q : Queue T) : Queue T :=
  let q := q.clearLoop
  { q with front := 0, back := 0 }

/-- The `queue_trivial::push_back`, lines 249-255. -/
def QueueTrivial.push_back (q : QueueTrivial T) (data : T) : QueueTrivial T :=
  let q := q.should_reallocate
  { q with buffer := q.buffer.set q.back (some data),
           back := (q.back + 1) % q.capacity,
           size := q.size + 1 }

/-- The `queue_trivial::emplace_back()` (no callback), lines 270-278: the slot's
prior bytes are left untouched — the buffer is not written at all. -/
def QueueTrivial.emplace_back (q : QueueTrivial T) : QueueTrivial T :=
  let q := q.should_reallocate
  { q with back := (q.back + 1) % q.capacity,
           size := q.size + 1 }

/-- Body of `queue_trivial::pop()` (no callback) after the `assert`,
lines 305-306: no cleanup, just handle movement. -/
def QueueTrivial.popGo (q : QueueTrivial T) : QueueTrivial T :=
  { q with front := (q.front + 1) % q.capacity,
           size := q.size - 1 }

/-- The `queue_trivial::pop()` (no callback), lines 302-307. -/
def QueueTrivial.pop (q : QueueTrivial T) : Option (QueueTrivial T) :=
  if q.size = 0 then none else some q.popGo

/-- The `queue_trivial::clear`, lines 244-247:
`front_ = 0; back_ = 0;` — and nothing else.  In particular `size_` is left
unchanged by the source. -/
def QueueTrivial.clear (q : QueueTrivial T) : QueueTrivial T :=
  { q with front := 0, back := 0 }

/-- The `queue_trivial::front`, lines 280-284, as a physical slot index. -/
def QueueTrivial.front_slot (q : QueueTrivial T) : Option Nat :=
  if q.size = 0 then none else some q.front

/-- The `queue_trivial::back`, lines 286-290:
`INT_TYPE last = (back_ + (size_ - 1)) % capacity_;`, as a physical slot
index. -/
def QueueTrivial.back_slot (q : QueueTrivial T) : Option Nat :=
  if q.size = 0 then none else some ((q.back + (q.size - 1)) % q.capacity)

/-- The `queue_trivial::operator[]`, lines 317-322, as a physical slot index. -/
def QueueTrivial.atSlot (q : QueueTrivial T) (i : Int) : Option Nat :=
  if 0 ≤ i ∧ i < (q.size : Int) then some ((q.front + i.toNat) % q.capacity) else none

/-- The `queue_trivial::operator[]`, lines 317-322, reading the slot's content. -/
def QueueTrivial.atv (q : QueueTrivial T) (i : Int) : Option T :=
  if 0 ≤ i ∧ i < (q.size : Int) then q.buffer.getD ((q.front + i.toNat) % q.capacity) none
  else none

/-- The `queue::iterator`, lines 28-49: captures the queue's buffer, front handle
and capacity, plus the iterator's own offset. (Constructor argument order in
the source: buffer, front, offset, capacity.) -/
structure QIter (T : Type) where
  buffer : List (Option T)
  front : Nat
  capacity : Nat
  offset : Nat
deriving DecidableEq

/-- Iterator `operator==`, line 47: `return a.offset_ == b.offset_;`. -/
def iter_eq (a b : QIter T) : Bool := a.offset == b.offset

/-- Iterator `operator!=`, line 48: `return a.offset_ != b.offset_;`. -/
def iter_ne (a b : QIter T) : Bool := a.offset != b.offset

/-- The `queue::begin`, lines 102-104: `iterator(buffer_, front_, 0, capacity_)`. -/
def Queue.begin (q : Queue T) : QIter T := ⟨q.buffer, q.front, q.capacity, 0⟩

/-- The `queue::end`, lines 106-108: `iterator(buffer_, front_, size_, capacity_)`
(`end` is a Lean keyword, hence the name `endIt`). -/
def Queue.endIt (q : Queue T) : QIter T := ⟨q.buffer, q.front, q.capacity, q.size⟩

/-- An append or remove operation, as driven by a caller. -/
inductive Op (T : Type) where
  | push : T → Op T
  | emplace : Op T
  | pop : Op T

/-- Run a sequence of appends/removes on the general variant; `none` as soon
as one `pop` hits a violated precondition (so `some` results are exactly the
runs in which every operation respected its precondition). -/
def runOps [Inhabited T] : List (Op T) → Queue T → Option (Queue T)
  | [], q => some q
  | Op.push v :: rest, q => runOps rest (q.push_back v)
  | Op.emplace :: rest, q => runOps rest q.emplace_back
  | Op.pop :: rest, q =>
      match q.pop with
      | none => none
      | some q' => runOps rest q'

/-- Run a sequence of appends/removes on the trivial variant. -/
def runOpsT : List (Op T) → QueueTrivial T → Option (QueueTrivial T)
  | [], q => some q
  | Op.push v :: rest, q => runOpsT rest (q.push_back v)
  | Op.emplace :: rest, q => runOpsT rest q.emplace_back
  | Op.pop :: rest, q =>
      match q.pop with
      | none => none
      | some q' => runOpsT rest q'

/-- Append a whole list of values, one `push_back` per element,
front to back. -/
def pushAll : List T → Queue T → Queue T
  | [], q => q
  | v :: rest, q => pushAll rest (q.push_back v)

/-- Append a whole list of values to the trivial variant. -/
def pushAllT : List T → QueueTrivial T → QueueTrivial T
  | [], q => q
  | v :: rest, q => pushAllT rest (q.push_back v)

/-- The index bookkeeping invariant of the general variant: the size fits the
capacity, and once a buffer exists the back handle is the front handle plus
the size, wrapped. -/
def Queue.IdxInv (q : Queue T) : Prop :=
  q.size ≤ q.capacity ∧ (0 < q.capacity → q.back = (q.front + q.size) % q.capacity)

/-- The index bookkeeping invariant of the trivial variant. -/
def QueueTrivial.IdxInv (q : QueueTrivial T) : Prop :=
  q.size ≤ q.capacity ∧ (0 < q.capacity → q.back = (q.front + q.size) % q.capacity)

/-- The general-variant state reached by appending the values of `acc`, in
order, to a fresh queue: the live range starts at physical slot 0 and slot
`i` holds the `i`-th appended value. -/
def Queue.reps (q : Queue T) (acc : List T) : Prop :=
  q.front = 0 ∧ q.size = acc.length ∧ q.buffer.length = q.capacity ∧
  acc.length ≤ q.capacity ∧ (0 < q.capacity → q.back = acc.length % q.capacity) ∧
  ∀ i, i < acc.length → q.buffer.getD i none = acc[i]?

/-- The trivial-variant state reached by appending the values of `acc`, in
order, to a fresh queue. -/
def QueueTrivial.reps (q : QueueTrivial T) (acc : List T) : Prop :=
  q.front = 0 ∧ q.size = acc.length ∧ q.buffer.length = q.capacity ∧
  acc.length ≤ q.capacity ∧ (0 < q.capacity → q.back = acc.length % q.capacity) ∧
  ∀ i, i < acc.length → q.buffer.getD i none = acc[i]?

/-- General variant after a single `push_back(7)` on a fresh queue:
capacity 2, element 7 at slot 0, `front_ = 0`, `back_ = 1`, `size_ = 1`. -/
def qOnePush : Queue Nat := Queue.init.push_back 7

/-- Trivial variant after a single `push_back(7)` on a fresh queue. -/
def tOnePush : QueueTrivial Nat := QueueTrivial.init.push_back 7

/-- Trivial variant after `push_back(5)` followed by `clear()`. -/
def tCleared : QueueTrivial Nat := (QueueTrivial.init.push_back 5).clear

/-- Trivial variant after `push_back(10); push_back(20); pop(); push_back(30)`
on a fresh queue (the `pop` precondition `size_ != 0` holds there, the state
having size 2, so `popGo` is exactly what the checked `pop` produces).
Resulting state: buffer `[30, 20]`, `front_ = 1`, `back_ = 1`,
`size_ = capacity_ = 2` — a completely full queue whose live range wraps:
logical order is `20` (slot 1) then `30` (slot 0). -/
def tWrapFull : QueueTrivial Nat :=
  ((QueueTrivial.init.push_back 10).push_back 20).popGo.push_back 30

/-- General variant after `push_back(1); push_back(2); pop(); push_back(3)`
on a fresh queue (the `pop` precondition holds there, the state having
size 2).  Resulting state: buffer `[3, 2]`, `front_ = 1`, `back_ = 1`,
`size_ = capacity_ = 2` — full, with a wrapped live range. -/
def gWrapFull : Queue Nat :=
  ((Queue.init.push_back 1).push_back 2).popGo.push_back 3

/-! ## Theorems -/

/-- Reading slot `i < n` of the buffer produced by the general variant's
growth loop gives exactly what iteration `i` of the loop wrote there. -/
theorem getD_range_map {α : Type} (f : Nat → Option α) (n i : Nat) (h : i < n) :
    ((List.range n).map f).getD i none = f i := by
  simp [List.getD_eq_getElem?_getD, List.getElem?_map, List.getElem?_range h]

/-- Claim C1.  The claim states that `back()` returns a reference to the
newest live element, residing at physical slot `(front + size - 1) mod
capacity`.  The code instead computes `(back_ + (size_ - 1)) % capacity_`,
which coincides with the claimed slot only when `size == capacity`.  Failing
input: a single `push_back(7)` on a fresh queue (either variant).  The state
is `front = 0, back = 1, size = 1, capacity = 2`; the claimed slot is `0`,
which holds the newest element `7`, but the code computes slot `1`, whose
contents are indeterminate (never written). -/
theorem c1_back_reads_wrong_slot :
    qOnePush.back_slot = some 1 ∧
    (qOnePush.front + qOnePush.size - 1) % qOnePush.capacity = 0 ∧
    qOnePush.buffer.getD 0 none = some 7 ∧
    qOnePush.buffer.getD 1 none = none ∧
    tOnePush.back_slot = some 1 ∧
    (tOnePush.front + tOnePush.size - 1) % tOnePush.capacity = 0 ∧
    tOnePush.buffer.getD 0 none = some 7 ∧
    tOnePush.buffer.getD 1 none = none := by decide

/-- Claim C2.  The claim states that the trivial variant's `clear()` leaves
`size == 0` (so `empty()` holds) and a subsequent append behaves as on an
empty queue.  The code of `queue_trivial::clear` resets `front_ = back_ = 0`
but never resets `size_`.  Failing input: `push_back(5)` then `clear()` on a
fresh trivial queue: `size` remains 1, and the subsequent `push_back(6)`
produces `size == 2` instead of the `size == 1` an append on an empty queue
yields.  (The `front == back == 0` part of the claim does hold.) -/
theorem c2_trivial_clear_keeps_size :
    tCleared.front = 0 ∧ tCleared.back = 0 ∧
    tCleared.size = 1 ∧
    (tCleared.push_back 6).size = 2 := by decide

/-- Claim C3.  The claim states that the trivial variant's growth transfer
preserves every live element at its original logical position even when the
live range wraps (`front > 0`).  The code transfers with
`memcpy(buffer_new, buffer_, sizeof(T) * size_)`, copying the first `size_`
physical slots in physical order, which rotates a wrapped live range.
Failing input: `push_back(10); push_back(20); pop(); push_back(30)` reaches
the full wrapped state `tWrapFull` (buffer `[30, 20]`, `front = 1`): logical
order before growth is `20, 30`, but after the growth transfer logical
position 0 reads `30` and logical position 1 reads `20`.  (The `front == 0`
part of the claim does hold after growth.) -/
theorem c3_trivial_growth_scrambles_wrapped :
    tWrapFull.capacity = tWrapFull.size ∧
    tWrapFull.front = 1 ∧
    tWrapFull.atv 0 = some 20 ∧ tWrapFull.atv 1 = some 30 ∧
    tWrapFull.should_reallocate.front = 0 ∧
    tWrapFull.should_reallocate.atv 0 = some 30 ∧
    tWrapFull.should_reallocate.atv 1 = some 20 := by decide

/-- Claim C5.  The claim states that for the general variant the number of
`T` constructor calls minus destructor calls always equals the current
`size`, and that destroying the queue brings the balance to zero.  But
`queue::push_back` stores with `buffer_[back_] = data;` — a plain assignment
into the raw slot, not a copy-construction — so appending performs no
constructor call at all.  Failing input: a single `push_back(7)` on a fresh
queue: 0 constructor calls and 0 destructor calls have been performed while
`size == 1`; destroying that queue then runs 1 destructor against 0
constructors, a final balance of `-1`, not zero. -/
theorem c5_pushback_makes_no_ctor_call :
    qOnePush.size = 1 ∧ qOnePush.ctors = 0 ∧ qOnePush.dtors = 0 ∧
    qOnePush.destroy = (0, 1) := by decide

/-- Claim C10.  Iterator equality and inequality for the general variant are
determined solely by the stored offset: `operator==` compares only
`offset_`, so any two iterators with equal offsets — whatever buffer, front
handle or capacity they captured, including iterators of two different
queues — compare equal; and since `begin()` carries offset `0` and `end()`
carries offset `size_`, `begin() == end()` exactly when `size == 0`. -/
theorem c10_iterator_offset_equality (T : Type) :
    (∀ a b : QIter T, iter_eq a b = true ↔ a.offset = b.offset) ∧
    (∀ a b : QIter T, iter_ne a b = true ↔ ¬a.offset = b.offset) ∧
    (∀ q : Queue T, iter_eq q.begin q.endIt = true ↔ q.size = 0) := by
  refine ⟨fun a b => ?_, fun a b => ?_, fun q => ?_⟩
  · simp [iter_eq]
  · simp [iter_ne]
  · simp only [iter_eq, Queue.begin, Queue.endIt, beq_iff_eq]
    exact eq_comm

/-- Witness for C10: the begin iterators of two different queues (a fresh
one and a one-element one, with different buffers and capacities) compare
equal because both offsets are 0; and on a fresh queue `begin() == end()`. -/
theorem c10_iterator_offset_equality_witness :
    iter_eq qOnePush.begin (Queue.init : Queue Nat).begin = true ∧
    iter_eq (Queue.init : Queue Nat).begin (Queue.init : Queue Nat).endIt = true := by
  constructor
  · exact ((c10_iterator_offset_equality Nat).1 _ _).mpr (by decide)
  · exact ((c10_iterator_offset_equality Nat).2.2 _).mpr (by decide)

/-- Claim C8.  On either variant: `pop`, `front()` and `back()` on an empty
queue (`size == 0`) fail the `assert(size_ != 0)` (modelled as `none`), and
`operator[]` with `i < 0` or `i >= size` fails `assert(i >= 0 && i < size_)`;
under the stated preconditions the assertion branch is not taken and the
operation completes (`isSome`).  The completion statements for `pop`,
`front()` and `back()` carry the reachable-state fact `size <= capacity`
(claim C6), which guarantees `capacity > 0` and hence a sound `% capacity_`. -/
theorem c8_precondition_asserts (T : Type) :
    (∀ q : Queue T, q.size = 0 →
        q.pop = none ∧ q.front_slot = none ∧ q.back_slot = none) ∧
    (∀ (q : Queue T) (i : Int), i < 0 ∨ (q.size : Int) ≤ i → q.atSlot i = none) ∧
    (∀ q : Queue T, q.size ≤ q.capacity → q.size ≠ 0 →
        q.pop.isSome ∧ q.front_slot.isSome ∧ q.back_slot.isSome) ∧
    (∀ (q : Queue T) (i : Int), 0 ≤ i → i < (q.size : Int) → (q.atSlot i).isSome) ∧
    (∀ q : QueueTrivial T, q.size = 0 →
        q.pop = none ∧ q.front_slot = none ∧ q.back_slot = none) ∧
    (∀ (q : QueueTrivial T) (i : Int), i < 0 ∨ (q.size : Int) ≤ i → q.atSlot i = none) ∧
    (∀ q : QueueTrivial T, q.size ≤ q.capacity → q.size ≠ 0 →
        q.pop.isSome ∧ q.front_slot.isSome ∧ q.back_slot.isSome) ∧
    (∀ (q : QueueTrivial T) (i : Int), 0 ≤ i → i < (q.size : Int) → (q.atSlot i).isSome) := by
  refine ⟨fun q h => ?_, fun q i h => ?_, fun q hc h => ?_, fun q i h1 h2 => ?_,
          fun q h => ?_, fun q i h => ?_, fun q hc h => ?_, fun q i h1 h2 => ?_⟩
  · simp [Queue.pop, Queue.front_slot, Queue.back_slot, h]
  · have hn : ¬(0 ≤ i ∧ i < (q.size : Int)) := by omega
    simp [Queue.atSlot, hn]
  · simp [Queue.pop, Queue.front_slot, Queue.back_slot, h]
  · have hp : (0 ≤ i ∧ i < (q.size : Int)) := ⟨h1, h2⟩
    simp [Queue.atSlot, hp]
  · simp [QueueTrivial.pop, QueueTrivial.front_slot, QueueTrivial.back_slot, h]
  · have hn : ¬(0 ≤ i ∧ i < (q.size : Int)) := by omega
    simp [QueueTrivial.atSlot, hn]
  · simp [QueueTrivial.pop, QueueTrivial.front_slot, QueueTrivial.back_slot, h]
  · have hp : (0 ≤ i ∧ i < (q.size : Int)) := ⟨h1, h2⟩
    simp [QueueTrivial.atSlot, hp]

/-- Witness for C8: the assertion fires on a fresh (empty) queue's `pop` and
on an out-of-range index, and the one-element queues complete `pop`, `back()`
and `operator[0]`. -/
theorem c8_precondition_asserts_witness :
    (Queue.init : Queue Nat).pop = none ∧
    (Queue.init : Queue Nat).atSlot (-1) = none ∧
    qOnePush.pop.isSome ∧ qOnePush.back_slot.isSome ∧ (qOnePush.atSlot 0).isSome ∧
    (QueueTrivial.init : QueueTrivial Nat).pop = none ∧
    tOnePush.pop.isSome := by
  have h := c8_precondition_asserts Nat
  refine ⟨(h.1 _ rfl).1, h.2.1 _ (-1) (Or.inl (by decide)), ?_, ?_, ?_, (h.2.2.2.2.1 _ rfl).1, ?_⟩
  · exact (h.2.2.1 qOnePush (by decide) (by decide)).1
  · exact (h.2.2.1 qOnePush (by decide) (by decide)).2.2
  · exact h.2.2.2.1 qOnePush 0 (by decide) (by decide)
  · exact (h.2.2.2.2.2.2.1 tOnePush (by decide) (by decide)).1

/-- A successful `queue::pop` is exactly the unchecked body applied to a
nonempty queue. -/
theorem Queue.pop_eq_some {q q' : Queue T} :
    q.pop = some q' ↔ q.size ≠ 0 ∧ q' = q.popGo := by
  constructor
  · intro h
    by_cases hs : q.size = 0
    · simp [Queue.pop, hs] at h
    · simp [Queue.pop, hs] at h
      exact ⟨hs, h.symm⟩
  · rintro ⟨hs, rfl⟩
    simp [Queue.pop, hs]

/-- A successful `queue_trivial::pop` is exactly the unchecked body applied
to a nonempty queue. -/
theorem QueueTrivial.pop_eq_someT {q q' : QueueTrivial T} :
    q.pop = some q' ↔ q.size ≠ 0 ∧ q' = q.popGo := by
  constructor
  · intro h
    by_cases hs : q.size = 0
    · simp [QueueTrivial.pop, hs] at h
    · simp [QueueTrivial.pop, hs] at h
      exact ⟨hs, h.symm⟩
  · rintro ⟨hs, rfl⟩
    simp [QueueTrivial.pop, hs]

/-- The growth check never shrinks the general variant's capacity. -/
theorem Queue.capacity_le_should_reallocate (q : Queue T) :
    q.capacity ≤ q.should_reallocate.capacity := by
  unfold Queue.should_reallocate
  split
  · show q.capacity ≤ if q.capacity = 0 then 2 else q.capacity * 2
    split <;> omega
  · exact Nat.le_refl _

/-- The growth check never shrinks the trivial variant's capacity. -/
theorem QueueTrivial.capacity_le_should_reallocateT (q : QueueTrivial T) :
    q.capacity ≤ q.should_reallocate.capacity := by
  unfold QueueTrivial.should_reallocate
  split
  · show q.capacity ≤ if q.capacity = 0 then 2 else q.capacity * 2
    split <;> omega
  · exact Nat.le_refl _

/-- Operation `queue::push_back` never shrinks the capacity. -/
theorem Queue.capacity_le_push_back (q : Queue T) (v : T) :
    q.capacity ≤ (q.push_back v).capacity :=
  q.capacity_le_should_reallocate

/-- Operation `queue::emplace_back` never shrinks the capacity. -/
theorem Queue.capacity_le_emplace_back [Inhabited T] (q : Queue T) :
    q.capacity ≤ q.emplace_back.capacity :=
  q.capacity_le_should_reallocate

/-- Operation `queue_trivial::push_back` never shrinks the capacity. -/
theorem QueueTrivial.capacity_le_push_backT (q : QueueTrivial T) (v : T) :
    q.capacity ≤ (q.push_back v).capacity :=
  q.capacity_le_should_reallocateT

/-- Operation `queue_trivial::emplace_back` never shrinks the capacity. -/
theorem QueueTrivial.capacity_le_emplace_backT (q : QueueTrivial T) :
    q.capacity ≤ q.emplace_back.capacity :=
  q.capacity_le_should_reallocateT

/-- No sequence of appends and removes ever shrinks the general variant's
capacity. -/
theorem runOps_capacity_mono [Inhabited T] :
    ∀ (ops : List (Op T)) (q q' : Queue T), runOps ops q = some q' →
      q.capacity ≤ q'.capacity := by
  intro ops
  induction ops with
  | nil =>
    intro q q' h
    simp only [runOps, Option.some.injEq] at h
    exact h ▸ Nat.le_refl _
  | cons op rest ih =>
    intro q q' h
    cases op with
    | push v => exact Nat.le_trans (q.capacity_le_push_back v) (ih _ _ h)
    | emplace => exact Nat.le_trans q.capacity_le_emplace_back (ih _ _ h)
    | pop =>
      simp only [runOps] at h
      cases hp : q.pop with
      | none => rw [hp] at h; exact absurd h (by simp)
      | some q2 =>
        rw [hp] at h
        change runOps rest q2 = some q' at h
        obtain ⟨-, rfl⟩ := Queue.pop_eq_some.mp hp
        exact ih q.popGo q' h

/-- No sequence of appends and removes ever shrinks the trivial variant's
capacity. -/
theorem runOpsT_capacity_mono :
    ∀ (ops : List (Op T)) (q q' : QueueTrivial T), runOpsT ops q = some q' →
      q.capacity ≤ q'.capacity := by
  intro ops
  induction ops with
  | nil =>
    intro q q' h
    simp only [runOpsT, Option.some.injEq] at h
    exact h ▸ Nat.le_refl _
  | cons op rest ih =>
    intro q q' h
    cases op with
    | push v => exact Nat.le_trans (q.capacity_le_push_backT v) (ih _ _ h)
    | emplace => exact Nat.le_trans q.capacity_le_emplace_backT (ih _ _ h)
    | pop =>
      simp only [runOpsT] at h
      cases hp : q.pop with
      | none => rw [hp] at h; exact absurd h (by simp)
      | some q2 =>
        rw [hp] at h
        change runOpsT rest q2 = some q' at h
        obtain ⟨-, rfl⟩ := QueueTrivial.pop_eq_someT.mp hp
        exact ih q.popGo q' h

/-- Claim C7.  For both variants: the growth check run on entry to every
append leaves the state untouched unless `size == capacity`, in which case
it replaces the buffer and sets the capacity to `max(2, 2 * old capacity)`
(the code's `if (capacity_ == 0) capacity_ = 2; else capacity_ *= 2;`
equals that for every `Nat` capacity); and no sequence of appends and
removes ever decreases the capacity. -/
theorem c7_growth_trigger_doubling_monotone (T : Type) [Inhabited T] :
    (∀ q : Queue T, q.capacity = q.size →
        q.should_reallocate.capacity = max 2 (2 * q.capacity) ∧
        q.should_reallocate.capacity ≠ q.capacity) ∧
    (∀ q : Queue T, q.capacity ≠ q.size → q.should_reallocate = q) ∧
    (∀ (ops : List (Op T)) (q q' : Queue T), runOps ops q = some q' →
        q.capacity ≤ q'.capacity) ∧
    (∀ q : QueueTrivial T, q.capacity = q.size →
        q.should_reallocate.capacity = max 2 (2 * q.capacity) ∧
        q.should_reallocate.capacity ≠ q.capacity) ∧
    (∀ q : QueueTrivial T, q.capacity ≠ q.size → q.should_reallocate = q) ∧
    (∀ (ops : List (Op T)) (q q' : QueueTrivial T), runOpsT ops q = some q' →
        q.capacity ≤ q'.capacity) := by
  refine ⟨fun q h => ?_, fun q h => ?_, runOps_capacity_mono,
          fun q h => ?_, fun q h => ?_, runOpsT_capacity_mono⟩
  · unfold Queue.should_reallocate
    rw [if_pos h]
    show (if q.capacity = 0 then 2 else q.capacity * 2) = max 2 (2 * q.capacity) ∧
      (if q.capacity = 0 then 2 else q.capacity * 2) ≠ q.capacity
    split <;> omega
  · unfold Queue.should_reallocate
    rw [if_neg h]
  · unfold QueueTrivial.should_reallocate
    rw [if_pos h]
    show (if q.capacity = 0 then 2 else q.capacity * 2) = max 2 (2 * q.capacity) ∧
      (if q.capacity = 0 then 2 else q.capacity * 2) ≠ q.capacity
    split <;> omega
  · unfold QueueTrivial.should_reallocate
    rw [if_neg h]

/-- Witness for C7: the first append on a fresh queue triggers growth to
capacity `max(2, 0) = 2`; a queue of capacity 2 holding one element does not
reallocate; and a concrete four-operation run only grows the capacity. -/
theorem c7_growth_trigger_doubling_monotone_witness :
    (Queue.init : Queue Nat).should_reallocate.capacity = max 2 (2 * 0) ∧
    qOnePush.should_reallocate = qOnePush ∧
    (Queue.init : Queue Nat).capacity ≤ (Queue.mk [some 7, some 6] 1 1 2 2 0 1).capacity := by
  have h := c7_growth_trigger_doubling_monotone Nat
  refine ⟨(h.1 Queue.init rfl).1, h.2.1 qOnePush (by decide), ?_⟩
  exact h.2.2.1 [Op.push 5, Op.pop, Op.push 6, Op.push 7] _ _ (by decide)

/-- Index arithmetic of one append on a state whose size fits strictly below
its capacity: the size still fits and the incremented back handle is front
plus new size, wrapped. -/
theorem idx_step {front back cap size : Nat} (h1 : size < cap)
    (h2 : back = (front + size) % cap) :
    size + 1 ≤ cap ∧ (back + 1) % cap = (front + (size + 1)) % cap := by
  refine ⟨h1, ?_⟩
  rw [h2, Nat.mod_add_mod, Nat.add_assoc]

/-- The growth check preserves the index invariant, keeps the size, and
leaves the size strictly below the capacity (general variant). -/
theorem Queue.idxInv_should_reallocate {q : Queue T} (h : q.IdxInv) :
    q.should_reallocate.IdxInv ∧ q.should_reallocate.size = q.size ∧
    q.should_reallocate.size < q.should_reallocate.capacity := by
  obtain ⟨h1, h2⟩ := h
  by_cases hc : q.capacity = q.size
  · unfold Queue.should_reallocate
    rw [if_pos hc]
    have hlt : q.size < if q.capacity = 0 then 2 else q.capacity * 2 := by
      split <;> omega
    refine ⟨⟨Nat.le_of_lt hlt, fun _ => ?_⟩, rfl, hlt⟩
    show q.size = (0 + q.size) % if q.capacity = 0 then 2 else q.capacity * 2
    rw [Nat.zero_add, Nat.mod_eq_of_lt hlt]
  · unfold Queue.should_reallocate
    rw [if_neg hc]
    exact ⟨⟨h1, h2⟩, rfl, by omega⟩

/-- The growth check preserves the index invariant, keeps the size, and
leaves the size strictly below the capacity (trivial variant). -/
theorem QueueTrivial.idxInv_should_reallocateT {q : QueueTrivial T} (h : q.IdxInv) :
    q.should_reallocate.IdxInv ∧ q.should_reallocate.size = q.size ∧
    q.should_reallocate.size < q.should_reallocate.capacity := by
  obtain ⟨h1, h2⟩ := h
  by_cases hc : q.capacity = q.size
  · unfold QueueTrivial.should_reallocate
    rw [if_pos hc]
    have hlt : q.size < if q.capacity = 0 then 2 else q.capacity * 2 := by
      split <;> omega
    refine ⟨⟨Nat.le_of_lt hlt, fun _ => ?_⟩, rfl, hlt⟩
    show q.size = (0 + q.size) % if q.capacity = 0 then 2 else q.capacity * 2
    rw [Nat.zero_add, Nat.mod_eq_of_lt hlt]
  · unfold QueueTrivial.should_reallocate
    rw [if_neg hc]
    exact ⟨⟨h1, h2⟩, rfl, by omega⟩

/-- Operation `queue::push_back` preserves the index invariant. -/
theorem Queue.idxInv_push_back {q : Queue T} (h : q.IdxInv) (v : T) :
    (q.push_back v).IdxInv := by
  obtain ⟨⟨hA, hB⟩, -, hlt⟩ := Queue.idxInv_should_reallocate h
  have hcap : 0 < q.should_reallocate.capacity := Nat.lt_of_le_of_lt (Nat.zero_le _) hlt
  obtain ⟨s1, s2⟩ := idx_step hlt (hB hcap)
  exact ⟨s1, fun _ => s2⟩

/-- Operation `queue::emplace_back` preserves the index invariant. -/
theorem Queue.idxInv_emplace_back [Inhabited T] {q : Queue T} (h : q.IdxInv) :
    q.emplace_back.IdxInv := by
  obtain ⟨⟨hA, hB⟩, -, hlt⟩ := Queue.idxInv_should_reallocate h
  have hcap : 0 < q.should_reallocate.capacity := Nat.lt_of_le_of_lt (Nat.zero_le _) hlt
  obtain ⟨s1, s2⟩ := idx_step hlt (hB hcap)
  exact ⟨s1, fun _ => s2⟩

/-- Operation `queue_trivial::push_back` preserves the index invariant. -/
theorem QueueTrivial.idxInv_push_backT {q : QueueTrivial T} (h : q.IdxInv) (v : T) :
    (q.push_back v).IdxInv := by
  obtain ⟨⟨hA, hB⟩, -, hlt⟩ := QueueTrivial.idxInv_should_reallocateT h
  have hcap : 0 < q.should_reallocate.capacity := Nat.lt_of_le_of_lt (Nat.zero_le _) hlt
  obtain ⟨s1, s2⟩ := idx_step hlt (hB hcap)
  exact ⟨s1, fun _ => s2⟩

/-- Operation `queue_trivial::emplace_back` preserves the index invariant. -/
theorem QueueTrivial.idxInv_emplace_backT {q : QueueTrivial T} (h : q.IdxInv) :
    q.emplace_back.IdxInv := by
  obtain ⟨⟨hA, hB⟩, -, hlt⟩ := QueueTrivial.idxInv_should_reallocateT h
  have hcap : 0 < q.should_reallocate.capacity := Nat.lt_of_le_of_lt (Nat.zero_le _) hlt
  obtain ⟨s1, s2⟩ := idx_step hlt (hB hcap)
  exact ⟨s1, fun _ => s2⟩

/-- A successful `queue::pop` preserves the index invariant. -/
theorem Queue.idxInv_pop {q q' : Queue T} (h : q.IdxInv) (hp : q.pop = some q') :
    q'.IdxInv := by
  obtain ⟨hs, rfl⟩ := Queue.pop_eq_some.mp hp
  obtain ⟨h1, h2⟩ := h
  have hcap : 0 < q.capacity := by omega
  refine ⟨by show q.size - 1 ≤ q.capacity; omega, fun _ => ?_⟩
  show q.back = ((q.front + 1) % q.capacity + (q.size - 1)) % q.capacity
  rw [Nat.mod_add_mod, h2 hcap]
  congr 1
  omega

/-- A successful `queue_trivial::pop` preserves the index invariant. -/
theorem QueueTrivial.idxInv_popT {q q' : QueueTrivial T} (h : q.IdxInv)
    (hp : q.pop = some q') : q'.IdxInv := by
  obtain ⟨hs, rfl⟩ := QueueTrivial.pop_eq_someT.mp hp
  obtain ⟨h1, h2⟩ := h
  have hcap : 0 < q.capacity := by omega
  refine ⟨by show q.size - 1 ≤ q.capacity; omega, fun _ => ?_⟩
  show q.back = ((q.front + 1) % q.capacity + (q.size - 1)) % q.capacity
  rw [Nat.mod_add_mod, h2 hcap]
  congr 1
  omega

/-- Any sequence of appends and removes, each respecting its precondition,
preserves the general variant's index invariant. -/
theorem runOps_idxInv [Inhabited T] :
    ∀ (ops : List (Op T)) (q q' : Queue T), q.IdxInv → runOps ops q = some q' →
      q'.IdxInv := by
  intro ops
  induction ops with
  | nil =>
    intro q q' h hr
    simp only [runOps, Option.some.injEq] at hr
    exact hr ▸ h
  | cons op rest ih =>
    intro q q' h hr
    cases op with
    | push v => exact ih _ _ (Queue.idxInv_push_back h v) hr
    | emplace => exact ih _ _ (Queue.idxInv_emplace_back h) hr
    | pop =>
      simp only [runOps] at hr
      cases hp : q.pop with
      | none => rw [hp] at hr; exact absurd hr (by simp)
      | some q2 =>
        rw [hp] at hr
        change runOps rest q2 = some q' at hr
        exact ih _ _ (Queue.idxInv_pop h hp) hr

/-- Any sequence of appends and removes, each respecting its precondition,
preserves the trivial variant's index invariant. -/
theorem runOpsT_idxInv :
    ∀ (ops : List (Op T)) (q q' : QueueTrivial T), q.IdxInv →
      runOpsT ops q = some q' → q'.IdxInv := by
  intro ops
  induction ops with
  | nil =>
    intro q q' h hr
    simp only [runOpsT, Option.some.injEq] at hr
    exact hr ▸ h
  | cons op rest ih =>
    intro q q' h hr
    cases op with
    | push v => exact ih _ _ (QueueTrivial.idxInv_push_backT h v) hr
    | emplace => exact ih _ _ (QueueTrivial.idxInv_emplace_backT h) hr
    | pop =>
      simp only [runOpsT] at hr
      cases hp : q.pop with
      | none => rw [hp] at hr; exact absurd hr (by simp)
      | some q2 =>
        rw [hp] at hr
        change runOpsT rest q2 = some q' at hr
        exact ih _ _ (QueueTrivial.idxInv_popT h hp) hr

/-- Claim C6.  For both variants, after every sequence of appends and
removes (each respecting its precondition) starting from a freshly
constructed queue, the state satisfies `0 <= size <= capacity` (the lower
bound holds by the `Nat` model) and, whenever `capacity > 0`,
`back == (front + size) mod capacity`. -/
theorem c6_index_invariant (T : Type) [Inhabited T] :
    (∀ (ops : List (Op T)) (q' : Queue T), runOps ops Queue.init = some q' →
        0 ≤ q'.size ∧ q'.size ≤ q'.capacity ∧
        (0 < q'.capacity → q'.back = (q'.front + q'.size) % q'.capacity)) ∧
    (∀ (ops : List (Op T)) (q' : QueueTrivial T),
        runOpsT ops QueueTrivial.init = some q' →
        0 ≤ q'.size ∧ q'.size ≤ q'.capacity ∧
        (0 < q'.capacity → q'.back = (q'.front + q'.size) % q'.capacity)) := by
  constructor
  · intro ops q' hr
    have h0 : (Queue.init : Queue T).IdxInv :=
      ⟨Nat.le_refl 0, fun h => absurd h (by simp [Queue.init])⟩
    obtain ⟨h1, h2⟩ := runOps_idxInv ops Queue.init q' h0 hr
    exact ⟨Nat.zero_le _, h1, h2⟩
  · intro ops q' hr
    have h0 : (QueueTrivial.init : QueueTrivial T).IdxInv :=
      ⟨Nat.le_refl 0, fun h => absurd h (by simp [QueueTrivial.init])⟩
    obtain ⟨h1, h2⟩ := runOpsT_idxInv ops QueueTrivial.init q' h0 hr
    exact ⟨Nat.zero_le _, h1, h2⟩

/-- Witness for C6: a concrete four-operation run on each variant, landing
in the concrete state with buffer `[7, 6]`, `front = back = 1`, `size =
capacity = 2`, which indeed satisfies the invariant. -/
theorem c6_index_invariant_witness :
    (0 ≤ (Queue.mk [some 7, some 6] 1 1 2 2 0 1 : Queue Nat).size ∧
      (Queue.mk [some 7, some 6] 1 1 2 2 0 1 : Queue Nat).size ≤
        (Queue.mk [some 7, some 6] 1 1 2 2 0 1 : Queue Nat).capacity ∧
      (0 < (Queue.mk [some 7, some 6] 1 1 2 2 0 1 : Queue Nat).capacity →
        (Queue.mk [some 7, some 6] 1 1 2 2 0 1 : Queue Nat).back =
          ((Queue.mk [some 7, some 6] 1 1 2 2 0 1 : Queue Nat).front +
              (Queue.mk [some 7, some 6] 1 1 2 2 0 1 : Queue Nat).size) %
            (Queue.mk [some 7, some 6] 1 1 2 2 0 1 : Queue Nat).capacity)) ∧
    (0 ≤ (QueueTrivial.mk [some 7, some 6] 1 1 2 2 : QueueTrivial Nat).size ∧
      (QueueTrivial.mk [some 7, some 6] 1 1 2 2 : QueueTrivial Nat).size ≤
        (QueueTrivial.mk [some 7, some 6] 1 1 2 2 : QueueTrivial Nat).capacity ∧
      (0 < (QueueTrivial.mk [some 7, some 6] 1 1 2 2 : QueueTrivial Nat).capacity →
        (QueueTrivial.mk [some 7, some 6] 1 1 2 2 : QueueTrivial Nat).back =
          ((QueueTrivial.mk [some 7, some 6] 1 1 2 2 : QueueTrivial Nat).front +
              (QueueTrivial.mk [some 7, some 6] 1 1 2 2 : QueueTrivial Nat).size) %
            (QueueTrivial.mk [some 7, some 6] 1 1 2 2 : QueueTrivial Nat).capacity)) := by
  constructor
  · exact (c6_index_invariant Nat).1 [Op.push 5, Op.pop, Op.push 6, Op.push 7] _ (by decide)
  · exact (c6_index_invariant Nat).2 [Op.push 5, Op.pop, Op.push 6, Op.push 7] _ (by decide)

/-- The general variant's growth check, written out on a state that triggers
it. -/
theorem Queue.should_reallocate_of_trigger {q : Queue T} (h : q.capacity = q.size) :
    q.should_reallocate = { q with
      buffer := (List.range (if q.capacity = 0 then 2 else q.capacity * 2)).map (fun i =>
        if i < q.size then q.buffer.getD ((q.front + i) % q.size) none else none),
      front := 0, back := q.size,
      capacity := if q.capacity = 0 then 2 else q.capacity * 2 } := by
  unfold Queue.should_reallocate
  rw [if_pos h]

/-- Claim C4.  For the general variant, at a growth trigger
(`capacity_ == size_` — the only point `should_reallocate` does anything),
the transfer loop moves the element at old physical slot
`(front + i) mod old_capacity` into new slot `i` for every `i < size`: the
code reduces the index modulo `size_`, which coincides with modulo
`capacity_` under the trigger equality.  Afterwards `front == 0`,
`back == size`, and indexed access at every logical position reads the same
value as before the growth. -/
theorem c4_growth_preserves_values (T : Type) (q : Queue T)
    (htrig : q.capacity = q.size) :
    (∀ i, i < q.size →
        q.should_reallocate.buffer.getD i none
          = q.buffer.getD ((q.front + i) % q.capacity) none) ∧
    q.should_reallocate.front = 0 ∧
    q.should_reallocate.back = q.size ∧
    (∀ i : Nat, i < q.size → q.should_reallocate.atv i = q.atv i) := by
  have hlt : ∀ i, i < q.size → i < (if q.capacity = 0 then 2 else q.capacity * 2) := by
    intro i hi
    split <;> omega
  rw [Queue.should_reallocate_of_trigger htrig]
  refine ⟨fun i hi => ?_, rfl, rfl, fun i hi => ?_⟩
  · show ((List.range (if q.capacity = 0 then 2 else q.capacity * 2)).map (fun j =>
        if j < q.size then q.buffer.getD ((q.front + j) % q.size) none else none)).getD
        i none = q.buffer.getD ((q.front + i) % q.capacity) none
    rw [getD_range_map _ _ _ (hlt i hi), if_pos hi, htrig]
  · have hc : 0 ≤ (i : Int) ∧ (i : Int) < (q.size : Int) := by
      constructor
      · exact Int.natCast_nonneg i
      · exact_mod_cast hi
    show (if 0 ≤ (i : Int) ∧ (i : Int) < (q.size : Int) then
        ((List.range (if q.capacity = 0 then 2 else q.capacity * 2)).map (fun j =>
          if j < q.size then q.buffer.getD ((q.front + j) % q.size) none else none)).getD
          ((0 + (i : Int).toNat) % (if q.capacity = 0 then 2 else q.capacity * 2)) none
      else none)
      = q.atv i
    unfold Queue.atv
    rw [if_pos hc, if_pos hc]
    have hti : ((i : Int)).toNat = i := Int.toNat_natCast i
    rw [hti, Nat.zero_add, Nat.mod_eq_of_lt (hlt i hi),
      getD_range_map _ _ _ (hlt i hi), if_pos hi, htrig]

/-- Witness for C4: the concrete full wrapped state `gWrapFull` (buffer
`[3, 2]`, front 1, size = capacity = 2) grows without disturbing either
logical position. -/
theorem c4_growth_preserves_values_witness :
    gWrapFull.should_reallocate.front = 0 ∧
    gWrapFull.should_reallocate.back = gWrapFull.size ∧
    gWrapFull.should_reallocate.atv 0 = gWrapFull.atv 0 ∧
    gWrapFull.should_reallocate.atv 1 = gWrapFull.atv 1 := by
  have h := c4_growth_preserves_values Nat gWrapFull (by decide)
  exact ⟨h.2.1, h.2.2.1, h.2.2.2 0 (by decide), h.2.2.2 1 (by decide)⟩

/-- The trivial variant's growth check, written out on a state that triggers
it. -/
theorem QueueTrivial.should_reallocate_of_triggerT {q : QueueTrivial T}
    (h : q.capacity = q.size) :
    q.should_reallocate = { q with
      buffer := q.buffer.take q.size ++
        List.replicate ((if q.capacity = 0 then 2 else q.capacity * 2) - q.size) none,
      front := 0, back := q.size,
      capacity := if q.capacity = 0 then 2 else q.capacity * 2 } := by
  unfold QueueTrivial.should_reallocate
  rw [if_pos h]

/-- Writing the appended value at the back slot extends a represented state
by one element (general variant). -/
theorem Queue.reps_set {q : Queue T} {acc : List T} (v : T)
    (h0 : q.front = 0) (h1 : q.size = acc.length) (h2 : q.buffer.length = q.capacity)
    (h3 : acc.length < q.capacity) (h4 : q.back = acc.length)
    (h5 : ∀ i, i < acc.length → q.buffer.getD i none = acc[i]?) :
    Queue.reps { q with
      buffer := q.buffer.set q.back (some v),
      back := (q.back + 1) % q.capacity,
      size := q.size + 1 } (acc ++ [v]) := by
  refine ⟨h0, ?_, ?_, ?_, fun _ => ?_, fun i hi => ?_⟩
  · show q.size + 1 = (acc ++ [v]).length
    simp [h1]
  · show (q.buffer.set q.back (some v)).length = q.capacity
    simp [h2]
  · show (acc ++ [v]).length ≤ q.capacity
    simp
    omega
  · show (q.back + 1) % q.capacity = (acc ++ [v]).length % q.capacity
    rw [h4]
    simp
  · show (q.buffer.set q.back (some v)).getD i none = (acc ++ [v])[i]?
    simp only [List.length_append, List.length_cons, List.length_nil] at hi
    rw [List.getD_eq_getElem?_getD, h4]
    by_cases he : i = acc.length
    · subst he
      rw [List.getElem?_set_self (by rw [h2]; exact h3), List.getElem?_concat_length]
      rfl
    · have hil : i < acc.length := by omega
      rw [List.getElem?_set_ne (fun hax => he hax.symm),
        List.getElem?_append_left hil, ← List.getD_eq_getElem?_getD]
      exact h5 i hil

/-- Writing the appended value at the back slot extends a represented state
by one element (trivial variant). -/
theorem QueueTrivial.reps_setT {q : QueueTrivial T} {acc : List T} (v : T)
    (h0 : q.front = 0) (h1 : q.size = acc.length) (h2 : q.buffer.length = q.capacity)
    (h3 : acc.length < q.capacity) (h4 : q.back = acc.length)
    (h5 : ∀ i, i < acc.length → q.buffer.getD i none = acc[i]?) :
    QueueTrivial.reps { q with
      buffer := q.buffer.set q.back (some v),
      back := (q.back + 1) % q.capacity,
      size := q.size + 1 } (acc ++ [v]) := by
  refine ⟨h0, ?_, ?_, ?_, fun _ => ?_, fun i hi => ?_⟩
  · show q.size + 1 = (acc ++ [v]).length
    simp [h1]
  · show (q.buffer.set q.back (some v)).length = q.capacity
    simp [h2]
  · show (acc ++ [v]).length ≤ q.capacity
    simp
    omega
  · show (q.back + 1) % q.capacity = (acc ++ [v]).length % q.capacity
    rw [h4]
    simp
  · show (q.buffer.set q.back (some v)).getD i none = (acc ++ [v])[i]?
    simp only [List.length_append, List.length_cons, List.length_nil] at hi
    rw [List.getD_eq_getElem?_getD, h4]
    by_cases he : i = acc.length
    · subst he
      rw [List.getElem?_set_self (by rw [h2]; exact h3), List.getElem?_concat_length]
      rfl
    · have hil : i < acc.length := by omega
      rw [List.getElem?_set_ne (fun hax => he hax.symm),
        List.getElem?_append_left hil, ← List.getD_eq_getElem?_getD]
      exact h5 i hil

/-- The growth check preserves representation and leaves the back handle at
the write position with spare capacity (general variant). -/
theorem Queue.reps_should_reallocate {q : Queue T} {acc : List T} (h : q.reps acc) :
    q.should_reallocate.reps acc ∧ acc.length < q.should_reallocate.capacity ∧
    q.should_reallocate.back = acc.length := by
  obtain ⟨h0, h1, h2, h3, h4, h5⟩ := h
  by_cases hc : q.capacity = q.size
  · rw [Queue.should_reallocate_of_trigger hc]
    have hcs : q.capacity = acc.length := by omega
    have hlt : acc.length < (if q.capacity = 0 then 2 else q.capacity * 2) := by
      split <;> omega
    refine ⟨⟨rfl, ?_, ?_, Nat.le_of_lt hlt, fun _ => ?_, fun i hi => ?_⟩, hlt, ?_⟩
    · exact h1
    · show ((List.range _).map _).length = _
      simp
    · show q.size = acc.length % _
      rw [h1, Nat.mod_eq_of_lt hlt]
    · show ((List.range (if q.capacity = 0 then 2 else q.capacity * 2)).map (fun j =>
          if j < q.size then q.buffer.getD ((q.front + j) % q.size) none else none)).getD
          i none = acc[i]?
      rw [getD_range_map _ _ _ (Nat.lt_trans hi hlt), if_pos (h1 ▸ hi),
        h0, Nat.zero_add, h1, Nat.mod_eq_of_lt hi]
      exact h5 i hi
    · exact h1
  · have hq : q.should_reallocate = q := by
      unfold Queue.should_reallocate
      rw [if_neg hc]
    rw [hq]
    have hlt : acc.length < q.capacity := by omega
    refine ⟨⟨h0, h1, h2, h3, h4, h5⟩, hlt, ?_⟩
    rw [h4 (by omega), Nat.mod_eq_of_lt hlt]

/-- The growth check preserves representation and leaves the back handle at
the write position with spare capacity (trivial variant).  The `memcpy`
transfer is order-preserving here because a represented state has
`front == 0` (no wrap). -/
theorem QueueTrivial.reps_should_reallocateT {q : QueueTrivial T} {acc : List T}
    (h : q.reps acc) :
    q.should_reallocate.reps acc ∧ acc.length < q.should_reallocate.capacity ∧
    q.should_reallocate.back = acc.length := by
  obtain ⟨h0, h1, h2, h3, h4, h5⟩ := h
  by_cases hc : q.capacity = q.size
  · rw [QueueTrivial.should_reallocate_of_triggerT hc]
    have hcs : q.capacity = acc.length := by omega
    have hlt : acc.length < (if q.capacity = 0 then 2 else q.capacity * 2) := by
      split <;> omega
    have htl : (q.buffer.take q.size).length = q.size := by
      rw [List.length_take, h2, hc, Nat.min_self]
    refine ⟨⟨rfl, ?_, ?_, Nat.le_of_lt hlt, fun _ => ?_, fun i hi => ?_⟩, hlt, ?_⟩
    · exact h1
    · show (q.buffer.take q.size ++
          List.replicate ((if q.capacity = 0 then 2 else q.capacity * 2) - q.size)
            none).length
          = (if q.capacity = 0 then 2 else q.capacity * 2)
      rw [List.length_append, htl, List.length_replicate]
      omega
    · show q.size = acc.length % _
      rw [h1, Nat.mod_eq_of_lt hlt]
    · show (q.buffer.take q.size ++ List.replicate _ none).getD i none = acc[i]?
      rw [List.getD_eq_getElem?_getD,
        List.getElem?_append_left (by rw [htl, h1]; exact hi),
        List.getElem?_take_of_lt (by rw [h1]; exact hi),
        ← List.getD_eq_getElem?_getD]
      exact h5 i hi
    · exact h1
  · have hq : q.should_reallocate = q := by
      unfold QueueTrivial.should_reallocate
      rw [if_neg hc]
    rw [hq]
    have hlt : acc.length < q.capacity := by omega
    refine ⟨⟨h0, h1, h2, h3, h4, h5⟩, hlt, ?_⟩
    rw [h4 (by omega), Nat.mod_eq_of_lt hlt]

/-- Operation `queue::push_back` extends the represented value list. -/
theorem Queue.reps_push_back {q : Queue T} {acc : List T} (h : q.reps acc) (v : T) :
    (q.push_back v).reps (acc ++ [v]) := by
  obtain ⟨⟨h0, h1, h2, h3, h4, h5⟩, hlt, hback⟩ := Queue.reps_should_reallocate h
  exact Queue.reps_set v h0 h1 h2 hlt hback h5

/-- Operation `queue_trivial::push_back` extends the represented value list. -/
theorem QueueTrivial.reps_push_backT {q : QueueTrivial T} {acc : List T}
    (h : q.reps acc) (v : T) : (q.push_back v).reps (acc ++ [v]) := by
  obtain ⟨⟨h0, h1, h2, h3, h4, h5⟩, hlt, hback⟩ := QueueTrivial.reps_should_reallocateT h
  exact QueueTrivial.reps_setT v h0 h1 h2 hlt hback h5

/-- Appending a list of values extends the represented value list
(general variant). -/
theorem Queue.reps_pushAll :
    ∀ (vs : List T) (q : Queue T) (acc : List T), q.reps acc →
      (pushAll vs q).reps (acc ++ vs) := by
  intro vs
  induction vs with
  | nil =>
    intro q acc h
    simpa using h
  | cons v rest ih =>
    intro q acc h
    have h2 := ih (q.push_back v) (acc ++ [v]) (Queue.reps_push_back h v)
    rw [List.append_assoc] at h2
    exact h2

/-- Appending a list of values extends the represented value list
(trivial variant). -/
theorem QueueTrivial.reps_pushAllT :
    ∀ (vs : List T) (q : QueueTrivial T) (acc : List T), q.reps acc →
      (pushAllT vs q).reps (acc ++ vs) := by
  intro vs
  induction vs with
  | nil =>
    intro q acc h
    simpa using h
  | cons v rest ih =>
    intro q acc h
    have h2 := ih (q.push_back v) (acc ++ [v]) (QueueTrivial.reps_push_backT h v)
    rw [List.append_assoc] at h2
    exact h2

/-- The fresh general-variant queue represents the empty value list. -/
theorem Queue.reps_init : (Queue.init : Queue T).reps [] := by
  refine ⟨rfl, rfl, rfl, Nat.le_refl 0, fun h => ?_, fun i hi => ?_⟩
  · simp [Queue.init] at h
  · exact absurd hi (by simp)

/-- The fresh trivial-variant queue represents the empty value list. -/
theorem QueueTrivial.reps_initT : (QueueTrivial.init : QueueTrivial T).reps [] := by
  refine ⟨rfl, rfl, rfl, Nat.le_refl 0, fun h => ?_, fun i hi => ?_⟩
  · simp [QueueTrivial.init] at h
  · exact absurd hi (by simp)

/-- Claim C9.  For every list `vs` of values appended (in order) to a
freshly constructed queue of either variant, indexed access afterwards
returns the values in insertion order: position `i < vs.length` reads
`vs[i]`, however many reallocations the appends performed. -/
theorem c9_insertion_order (T : Type) (vs : List T) (i : Nat) (h : i < vs.length) :
    (pushAll vs Queue.init).atv i = vs[i]? ∧
    (pushAllT vs QueueTrivial.init).atv i = vs[i]? := by
  constructor
  · have hr := Queue.reps_pushAll vs Queue.init [] Queue.reps_init
    rw [List.nil_append] at hr
    obtain ⟨h0, h1, h2, h3, h4, h5⟩ := hr
    have hc : 0 ≤ (i : Int) ∧ (i : Int) < ((pushAll vs Queue.init).size : Int) := by
      refine ⟨Int.natCast_nonneg i, ?_⟩
      rw [h1]
      exact_mod_cast h
    unfold Queue.atv
    rw [if_pos hc, Int.toNat_natCast, h0, Nat.zero_add,
      Nat.mod_eq_of_lt (Nat.lt_of_lt_of_le h h3)]
    exact h5 i h
  · have hr := QueueTrivial.reps_pushAllT vs QueueTrivial.init [] QueueTrivial.reps_initT
    rw [List.nil_append] at hr
    obtain ⟨h0, h1, h2, h3, h4, h5⟩ := hr
    have hc : 0 ≤ (i : Int) ∧ (i : Int) < ((pushAllT vs QueueTrivial.init).size : Int) := by
      refine ⟨Int.natCast_nonneg i, ?_⟩
      rw [h1]
      exact_mod_cast h
    unfold QueueTrivial.atv
    rw [if_pos hc, Int.toNat_natCast, h0, Nat.zero_add,
      Nat.mod_eq_of_lt (Nat.lt_of_lt_of_le h h3)]
    exact h5 i h

/-- Witness for C9: appending `3, 1, 4, 1, 5` to a fresh queue of either
variant (two reallocations happen along the way: capacity 0 to 2 to 4 to 8)
and reading logical position 2 yields the third appended value, `4`. -/
theorem c9_insertion_order_witness :
    (pushAll [3, 1, 4, 1, 5] Queue.init).atv 2 = some 4 ∧
    (pushAllT [3, 1, 4, 1, 5] QueueTrivial.init).atv 2 = some 4 := by
  exact c9_insertion_order Nat [3, 1, 4, 1, 5] 2 (by decide)

end NQ
